import Mathlib

/-!
Verification of the context-based structured logger (Go implementation).

The development shallowly embeds the repository's Go sources:

* `logcontext.go` (both duplicated copies): the immutable `LogContext`
  builder over `LogContextData`, whose `Tags` / `Metadata` fields are Go
  map headers.  Go maps are mutable reference values, so the embedding
  threads an explicit `Heap` of map cells; a `LogContextData` holds
  optional cell indices (`none` models a nil map header).
* `logger.go`: the `log` function that assembles a `LogOutput` from the
  context bound in a `context.Context` plus the variadic arguments,
  marshals it with `encoding/json` semantics, and writes one line.

Real wall-clock time (the RFC3339 timestamp) is passed in as an opaque
`now : String` parameter.
-/

namespace ContextLogger

/-- Comparison of character lists by code point.  UTF-8 byte order agrees
with code-point order, so this is exactly the byte-wise lexicographic
comparison used by Go's `sort.Strings` and by `encoding/json` for map
keys. -/
def charListLe (s t : List Char) : Bool :=
  match s, t with
  | [], _ => true
  | x :: xs, rest =>
    match rest with
    | [] => false
    | y :: ys =>
      if x < y then true
      else if y < x then false
      else charListLe xs ys

/-- Go string comparison (byte-wise lexicographic `s <= t`). -/
def stringLe (s t : String) : Bool := charListLe s.data t.data

/-- The ordering of `stringLe` as a proposition. -/
def strLe (s t : String) : Prop := stringLe s t = true

instance : DecidableRel strLe := fun _ _ => inferInstanceAs (Decidable (_ = true))

/-- Go's `sort.Strings`: sorts a string slice ascending. -/
def sortStrings (l : List String) : List String := List.insertionSort strLe l

/-- Values carried by Go `interface{}` arguments.  `str` is a string,
`num` an integer, `errv` an error value whose field is the string its
`Error()` method returns, and `fn` a function value (the one shape with
no JSON encoding).  A function value prints under `%v` as its address;
the address itself is irrelevant to every claim, so it is modeled as a
fixed placeholder string. -/
inductive GoValue where
  | str : String → GoValue
  | num : Int → GoValue
  | errv : String → GoValue
  | fn : GoValue
deriving DecidableEq, Repr

/-- Whether the operand's dynamic type is `string` (the test
`fmt.Sprint` uses when deciding to insert a space). -/
def GoValue.isStringOperand : GoValue → Bool
  | .str _ => true
  | _ => false

/-- Whether the value is error-like (implements Go's `error`). -/
def GoValue.isErrorValue : GoValue → Bool
  | .errv _ => true
  | _ => false

/-- Default `%v` string form of a value: a string prints as itself, an
integer in decimal, an error as its `Error()` string. -/
def GoValue.form : GoValue → String
  | .str s => s
  | .num n => toString n
  | .errv m => m
  | .fn => "0x0"

/-- Go's `fmt.Sprint`: operands are formatted in their default formats
and concatenated; a space is added between two adjacent operands only
when neither of them is a string. -/
def goSprint : List GoValue → String
  | [] => ""
  | [a] => a.form
  | a :: b :: rest =>
    a.form ++ (if a.isStringOperand || b.isStringOperand then "" else " ") ++ goSprint (b :: rest)

/-- Association-list lookup, the read `m[k]` on a Go map. -/
def mapLookup {α : Type} : List (String × α) → String → Option α
  | [], _ => none
  | (k, v) :: rest, key => if k = key then some v else mapLookup rest key

/-- Association-list upsert, the write `m[k] = v` on a Go map. -/
def mapInsert {α : Type} : List (String × α) → String → α → List (String × α)
  | [], key, val => [(key, val)]
  | (k, v) :: rest, key, val =>
    if k = key then (key, val) :: rest else (k, v) :: mapInsert rest key val

/-- Association-list removal, Go's `delete(m, k)`. -/
def mapDelete {α : Type} : List (String × α) → String → List (String × α)
  | [], _ => []
  | (k, v) :: rest, key =>
    if k = key then mapDelete rest key else (k, v) :: mapDelete rest key

/-- Keys of a map cell, Go's `for k := range m`. -/
def mapKeys {α : Type} (m : List (String × α)) : List String := m.map Prod.fst

/-- Content of a Go `map[string]bool` cell. -/
abbrev TagMap := List (String × Bool)

/-- Content of a Go `map[string]string` cell. -/
abbrev MetaMap := List (String × String)

/-- The store of allocated map cells.  A Go map header is an index into
the matching cell list; `make` appends a cell, and writes through any
header holding the same index are visible to every holder — exactly the
aliasing behavior of Go maps. -/
structure Heap where
  tagCells : List TagMap
  metaCells : List MetaMap
deriving DecidableEq, Repr

def Heap.getTag (h : Heap) (i : Nat) : TagMap := (h.tagCells[i]?).getD []

def Heap.getMeta (h : Heap) (i : Nat) : MetaMap := (h.metaCells[i]?).getD []

/-- Go's `make(map[string]bool)` seeded with content `c`: allocates a
fresh cell and returns its header. -/
def Heap.allocTag (h : Heap) (c : TagMap) : Nat × Heap :=
  (h.tagCells.length, { h with tagCells := h.tagCells ++ [c] })

def Heap.allocMeta (h : Heap) (c : MetaMap) : Nat × Heap :=
  (h.metaCells.length, { h with metaCells := h.metaCells ++ [c] })

def Heap.setTag (h : Heap) (i : Nat) (c : TagMap) : Heap :=
  { h with tagCells := h.tagCells.set i c }

def Heap.setMeta (h : Heap) (i : Nat) (c : MetaMap) : Heap :=
  { h with metaCells := h.metaCells.set i c }

/-- Dereference of a possibly-nil `map[string]bool` header for reading;
Go reads of a nil map see an empty map. -/
def Heap.readTag (h : Heap) : Option Nat → TagMap
  | none => []
  | some i => h.getTag i

def Heap.readMeta (h : Heap) : Option Nat → MetaMap
  | none => []
  | some i => h.getMeta i

/-- One in-place update of the tag cell a header points at (a nil header
is never written through by the embedded code: every write follows
`copyData`, which returns non-nil headers). -/
def Heap.updateTag (h : Heap) : Option Nat → (TagMap → TagMap) → Heap
  | none, _ => h
  | some i, f => h.setTag i (f (h.getTag i))

def Heap.updateMeta (h : Heap) : Option Nat → (MetaMap → MetaMap) → Heap
  | none, _ => h
  | some i, f => h.setMeta i (f (h.getMeta i))

/-- The struct `LogContextData` of `types.go`.  `Tags` and `Metadata`
are Go map headers: heap cell indices, `none` for a nil header. -/
structure LogContextData where
  Tags : Option Nat
  Category : String
  Metadata : Option Nat
  SessionID : String
deriving DecidableEq, Repr

/-- The struct `LogContext`, wrapping one `LogContextData`. -/
structure LogContext where
  data : LogContextData
deriving DecidableEq, Repr

/-- Function `NewLogContext` (first copy): replaces nil `Tags` and
`Metadata` headers with freshly made empty maps, then wraps the data. -/
def NewLogContext (data : LogContextData) (h : Heap) : LogContext × Heap :=
  let (data, h) :=
    match data.Tags with
    | none => let (i, h1) := h.allocTag []; ({ data with Tags := some i }, h1)
    | some _ => (data, h)
  let (data, h) :=
    match data.Metadata with
    | none => let (i, h1) := h.allocMeta []; ({ data with Metadata := some i }, h1)
    | some _ => (data, h)
  ({ data := data }, h)

/-- Method `copyData` (first copy): makes fresh tag and metadata cells,
copies the receiver's entries into them, and returns a
`LogContextData` holding the fresh headers. -/
def LogContext.copyData (lc : LogContext) (h : Heap) : LogContextData × Heap :=
  let (ti, h1) := h.allocTag (h.readTag lc.data.Tags)
  let (mi, h2) := h1.allocMeta (h1.readMeta lc.data.Metadata)
  ({ Tags := some ti, Category := lc.data.Category,
     Metadata := some mi, SessionID := lc.data.SessionID }, h2)

/-- Method `WithCategory` (first copy). -/
def LogContext.WithCategory (lc : LogContext) (category : String) (h : Heap) :
    LogContext × Heap :=
  let (newData, h1) := lc.copyData h
  ({ data := { newData with Category := category } }, h1)

/-- Method `WithSessionID` (first copy). -/
def LogContext.WithSessionID (lc : LogContext) (sessionID : String) (h : Heap) :
    LogContext × Heap :=
  let (newData, h1) := lc.copyData h
  ({ data := { newData with SessionID := sessionID } }, h1)

/-- Method `WithTags` (first copy): `newData.Tags[tag] = true` for each
variadic tag. -/
def LogContext.WithTags (lc : LogContext) (tags : List String) (h : Heap) :
    LogContext × Heap :=
  let (newData, h1) := lc.copyData h
  let h2 := tags.foldl (fun hh tag => hh.updateTag newData.Tags (fun c => mapInsert c tag true)) h1
  ({ data := newData }, h2)

/-- Method `WithoutTags` (first copy): `delete(newData.Tags, tag)` for
each variadic tag. -/
def LogContext.WithoutTags (lc : LogContext) (tags : List String) (h : Heap) :
    LogContext × Heap :=
  let (newData, h1) := lc.copyData h
  let h2 := tags.foldl (fun hh tag => hh.updateTag newData.Tags (fun c => mapDelete c tag)) h1
  ({ data := newData }, h2)

/-- Method `WithMetadata` (first copy): `newData.Metadata[k] = v` for
each entry of the argument map. -/
def LogContext.WithMetadata (lc : LogContext) (metadata : MetaMap) (h : Heap) :
    LogContext × Heap :=
  let (newData, h1) := lc.copyData h
  let h2 := metadata.foldl
    (fun hh kv => hh.updateMeta newData.Metadata (fun c => mapInsert c kv.1 kv.2)) h1
  ({ data := newData }, h2)

/-- Method `WithoutMetadata` (first copy): `delete(newData.Metadata, key)`
for each variadic key. -/
def LogContext.WithoutMetadata (lc : LogContext) (keys : List String) (h : Heap) :
    LogContext × Heap :=
  let (newData, h1) := lc.copyData h
  let h2 := keys.foldl (fun hh key => hh.updateMeta newData.Metadata (fun c => mapDelete c key)) h1
  ({ data := newData }, h2)

/-- Values stored in a `context.Context`: either this package's
`*LogContext` or a value of some unrelated type. -/
inductive CtxValue where
  | logctx : LogContext → CtxValue
  | other : String → CtxValue
deriving DecidableEq, Repr

/-- Go's `context.Context` chain: `context.Background()` plus
`context.WithValue` layers.  The key string models the package's
private `contextKey` type, which no code outside the package can forge. -/
inductive GoContext where
  | background : GoContext
  | withValue : GoContext → String → CtxValue → GoContext
deriving DecidableEq, Repr

/-- The package constant `logContextKey`. -/
def logContextKey : String := "logContext"

/-- Go's `ctx.Value(key)`: the value of the innermost enclosing
`WithValue` layer with that key. -/
def GoContext.valueOf : GoContext → String → Option CtxValue
  | .background, _ => none
  | .withValue parent k v, key => if k = key then some v else parent.valueOf key

/-- The checked type assertion `v.(*LogContext)` applied to a possibly
absent context value. -/
def assertLogContext : Option CtxValue → Option LogContext
  | some (.logctx lc) => some lc
  | _ => none

/-- The `lc, ok := ctx.Value(logContextKey).(*LogContext)` step of
`GetLogContext`. -/
def boundLogContext (ctx : GoContext) : Option LogContext :=
  assertLogContext (ctx.valueOf logContextKey)

/-- Function `GetLogContext` (first copy): the bound `LogContext` when
the assertion succeeds, otherwise `NewLogContext(LogContextData{})`. -/
def GetLogContext (ctx : GoContext) (h : Heap) : LogContext × Heap :=
  match boundLogContext ctx with
  | some lc => (lc, h)
  | none => NewLogContext { Tags := none, Category := "", Metadata := none, SessionID := "" } h

/-- Function `WithLogContext` (first copy): stores the `LogContext`
under `logContextKey`. -/
def WithLogContext (ctx : GoContext) (lc : LogContext) : GoContext :=
  .withValue ctx logContextKey (.logctx lc)

namespace Copy2

/-- Function `NewLogContext`, second duplicated copy. -/
def NewLogContext (data : LogContextData) (h : Heap) : LogContext × Heap :=
  let (data, h) :=
    match data.Tags with
    | none => let (i, h1) := h.allocTag []; ({ data with Tags := some i }, h1)
    | some _ => (data, h)
  let (data, h) :=
    match data.Metadata with
    | none => let (i, h1) := h.allocMeta []; ({ data with Metadata := some i }, h1)
    | some _ => (data, h)
  ({ data := data }, h)

/-- Method `copyData`, second duplicated copy. -/
def copyData (lc : LogContext) (h : Heap) : LogContextData × Heap :=
  let (ti, h1) := h.allocTag (h.readTag lc.data.Tags)
  let (mi, h2) := h1.allocMeta (h1.readMeta lc.data.Metadata)
  ({ Tags := some ti, Category := lc.data.Category,
     Metadata := some mi, SessionID := lc.data.SessionID }, h2)

/-- Method `WithCategory`, second duplicated copy. -/
def WithCategory (lc : LogContext) (category : String) (h : Heap) : LogContext × Heap :=
  let (newData, h1) := copyData lc h
  ({ data := { newData with Category := category } }, h1)

/-- Method `WithSessionID`, second duplicated copy. -/
def WithSessionID (lc : LogContext) (sessionID : String) (h : Heap) : LogContext × Heap :=
  let (newData, h1) := copyData lc h
  ({ data := { newData with SessionID := sessionID } }, h1)

/-- Method `WithTags`, second duplicated copy. -/
def WithTags (lc : LogContext) (tags : List String) (h : Heap) : LogContext × Heap :=
  let (newData, h1) := copyData lc h
  let h2 := tags.foldl (fun hh tag => hh.updateTag newData.Tags (fun c => mapInsert c tag true)) h1
  ({ data := newData }, h2)

/-- Method `WithoutTags`, second duplicated copy. -/
def WithoutTags (lc : LogContext) (tags : List String) (h : Heap) : LogContext × Heap :=
  let (newData, h1) := copyData lc h
  let h2 := tags.foldl (fun hh tag => hh.updateTag newData.Tags (fun c => mapDelete c tag)) h1
  ({ data := newData }, h2)

/-- Method `WithMetadata`, second duplicated copy. -/
def WithMetadata (lc : LogContext) (metadata : MetaMap) (h : Heap) : LogContext × Heap :=
  let (newData, h1) := copyData lc h
  let h2 := metadata.foldl
    (fun hh kv => hh.updateMeta newData.Metadata (fun c => mapInsert c kv.1 kv.2)) h1
  ({ data := newData }, h2)

/-- Method `WithoutMetadata`, second duplicated copy. -/
def WithoutMetadata (lc : LogContext) (keys : List String) (h : Heap) : LogContext × Heap :=
  let (newData, h1) := copyData lc h
  let h2 := keys.foldl (fun hh key => hh.updateMeta newData.Metadata (fun c => mapDelete c key)) h1
  ({ data := newData }, h2)

/-- Function `GetLogContext`, second duplicated copy. -/
def GetLogContext (ctx : GoContext) (h : Heap) : LogContext × Heap :=
  match boundLogContext ctx with
  | some lc => (lc, h)
  | none => NewLogContext { Tags := none, Category := "", Metadata := none, SessionID := "" } h

/-- The generic `WithLogContext` of the second copy: enriches the
context with the `LogContext` and runs the callback on the enriched
context, returning its `(T, error)` pair as-is. -/
def WithLogContext {T : Type} (ctx : GoContext) (logContext : LogContext)
    (callback : GoContext → T × Option String) : T × Option String :=
  let enrichedCtx := GoContext.withValue ctx logContextKey (CtxValue.logctx logContext)
  callback enrichedCtx

end Copy2

/-- The `LogLevel` constants of `types.go`. -/
inductive LogLevel where
  | debug | info | warn | error
deriving DecidableEq, Repr

/-- The string value of each `LogLevel` constant. -/
def LogLevel.levelString : LogLevel → String
  | .debug => "debug"
  | .info => "info"
  | .warn => "warn"
  | .error => "error"

/-- Values the `log` function stores in the `Details` map: strings, the
sorted tag slice, and the metadata map. -/
inductive DetailValue where
  | strv : String → DetailValue
  | strlist : List String → DetailValue
  | strmap : MetaMap → DetailValue
deriving DecidableEq, Repr

/-- The struct `LogOutput` of `types.go`.  `Message` is an `interface{}`
field tagged `omitempty`, `SessionID` a string tagged `omitempty`, and
`Details` a `map[string]interface{}` that is always present. -/
structure LogOutput where
  Level : LogLevel
  Message : Option GoValue
  SessionID : String
  Details : List (String × DetailValue)
deriving DecidableEq, Repr

/-- The observable content of a `LogContext` under a heap: its tag and
metadata cells dereferenced, plus the plain string fields. -/
structure DataView where
  tags : TagMap
  category : String
  metadata : MetaMap
  sessionID : String
deriving DecidableEq, Repr

/-- Dereferences a context's map headers in a heap. -/
def resolveData (h : Heap) (lc : LogContext) : DataView :=
  { tags := h.readTag lc.data.Tags
    category := lc.data.Category
    metadata := h.readMeta lc.data.Metadata
    sessionID := lc.data.SessionID }

/-- The record-assembly half of `log` in `logger.go`: builds the
`LogOutput` from the resolved context data and the argument list.
`now` is the RFC3339 rendering of `time.Now().UTC()`. -/
def buildLogOutput (level : LogLevel) (d : DataView) (args : List GoValue) (now : String) :
    LogOutput :=
  let details0 : List (String × DetailValue) := []
  let details1 :=
    if d.tags.length > 0 then
      details0 ++ [("tags", DetailValue.strlist (sortStrings (mapKeys d.tags)))]
    else details0
  let details2 :=
    if d.category ≠ "" then details1 ++ [("category", DetailValue.strv d.category)]
    else details1
  let details3 :=
    if d.metadata.length > 0 then details2 ++ [("metadata", DetailValue.strmap d.metadata)]
    else details2
  let details4 := details3 ++ [("timestamp", DetailValue.strv now)]
  { Level := level
    Message := if args.length > 0 then some (GoValue.str (goSprint args)) else none
    SessionID := if d.sessionID ≠ "" then d.sessionID else ""
    Details := details4 }

/-- JSON documents produced by `encoding/json`. -/
inductive Json where
  | str : String → Json
  | num : Int → Json
  | arr : List Json → Json
  | obj : List (String × Json) → Json

/-- Field access on a JSON object. -/
def Json.objLookup : Json → String → Option Json
  | .obj fields, k => mapLookup fields k
  | _, _ => none

/-- Marshaling of an `interface{}` value: a function value has no JSON
encoding and makes `json.Marshal` fail; an error value (a struct with
no exported fields) marshals as an empty object. -/
def goValueToJson : GoValue → Except String Json
  | .str s => .ok (.str s)
  | .num n => .ok (.num n)
  | .errv _ => .ok (.obj [])
  | .fn => .error "json: unsupported type: func()"

/-- Marshaling of a `Details` value; `encoding/json` writes map keys in
ascending byte order. -/
def detailValueToJson : DetailValue → Json
  | .strv s => .str s
  | .strlist l => .arr (l.map Json.str)
  | .strmap m =>
    .obj ((sortStrings (mapKeys m)).map (fun k => (k, Json.str ((mapLookup m k).getD ""))))

/-- Rendering of the `Details` map as a JSON object: `encoding/json`
writes the entries of a Go map in ascending key order. -/
def detailsObjFields (m : List (String × DetailValue)) : List (String × Json) :=
  (sortStrings (mapKeys m)).map
    (fun k => (k, detailValueToJson ((mapLookup m k).getD (DetailValue.strv ""))))

/-- Go's `json.Marshal` on a `LogOutput`: struct fields in declaration
order; `message` is omitted exactly when the interface value is nil
(`omitempty` on an interface field does not look inside the interface,
so a non-nil empty string is still emitted); `sessionId` is omitted when
the string is empty; `details` is always present with its map keys in
ascending order. -/
def marshalLogOutput (o : LogOutput) : Except String Json :=
  let msgField : Except String (List (String × Json)) :=
    match o.Message with
    | none => .ok []
    | some v =>
      match goValueToJson v with
      | .ok j => .ok [("message", j)]
      | .error e => .error e
  match msgField with
  | .error e => .error e
  | .ok mf =>
    let sessField := if o.SessionID = "" then [] else [("sessionId", Json.str o.SessionID)]
    let detailsField := [("details", Json.obj (detailsObjFields o.Details))]
    .ok (.obj ([("level", Json.str o.Level.levelString)] ++ mf ++ sessField ++ detailsField))

/-- What one `log` call writes: at most one JSON line on the standard
output stream and at most one diagnostic line on the standard error
stream. -/
structure EmitResult where
  stdout : Option Json
  stderr : Option String

/-- The marshal-and-write half of `log`: on marshal failure it writes
the diagnostic to the standard error stream and returns without writing
the record; on success it writes the JSON line to standard output. -/
def emitLogOutput (o : LogOutput) : EmitResult :=
  match marshalLogOutput o with
  | .error e => { stdout := none, stderr := some ("Failed to marshal log: " ++ e ++ "\n") }
  | .ok j => { stdout := some j, stderr := none }

/-- The record a `log` call assembles: `GetLogContext` on the logger's
context, then `buildLogOutput`. -/
def logRecord (ctx : GoContext) (level : LogLevel) (args : List GoValue) (h : Heap)
    (now : String) : LogOutput :=
  let (logContext, h1) := GetLogContext ctx h
  buildLogOutput level (resolveData h1 logContext) args now

/-- The full `log` method of `contextLogger`. -/
def log (ctx : GoContext) (level : LogLevel) (args : List GoValue) (h : Heap)
    (now : String) : EmitResult :=
  emitLogOutput (logRecord ctx level args h now)

/-- Method `Debug`. -/
def Debug (ctx : GoContext) (args : List GoValue) (h : Heap) (now : String) : EmitResult :=
  log ctx .debug args h now

/-- Method `Info`. -/
def Info (ctx : GoContext) (args : List GoValue) (h : Heap) (now : String) : EmitResult :=
  log ctx .info args h now

/-- Method `Warn`. -/
def Warn (ctx : GoContext) (args : List GoValue) (h : Heap) (now : String) : EmitResult :=
  log ctx .warn args h now

/-- Method `Error`. -/
def Error (ctx : GoContext) (args : List GoValue) (h : Heap) (now : String) : EmitResult :=
  log ctx .error args h now

/-- Validity of one map header against a cell count. -/
def refValid : Option Nat → Nat → Bool
  | none, _ => true
  | some r, n => decide (r < n)

/-- A context is valid in a heap when each of its non-nil map headers
points at an allocated cell.  Every context produced by the package's
own operations satisfies this. -/
def LogContext.ValidIn (lc : LogContext) (h : Heap) : Prop :=
  refValid lc.data.Tags h.tagCells.length = true ∧
  refValid lc.data.Metadata h.metaCells.length = true

instance (lc : LogContext) (h : Heap) : Decidable (lc.ValidIn h) :=
  inferInstanceAs (Decidable (refValid lc.data.Tags h.tagCells.length = true ∧
    refValid lc.data.Metadata h.metaCells.length = true))

/-- The six builder mutators as one type, so that properties can
quantify over the mutator applied. -/
inductive Mutator where
  | withCategory : String → Mutator
  | withSessionID : String → Mutator
  | withTags : List String → Mutator
  | withoutTags : List String → Mutator
  | withMetadata : MetaMap → Mutator
  | withoutMetadata : List String → Mutator
deriving DecidableEq, Repr

/-- Dispatch of a mutator to the corresponding method of the first copy. -/
def applyMutator : Mutator → LogContext → Heap → LogContext × Heap
  | .withCategory c, lc, h => lc.WithCategory c h
  | .withSessionID s, lc, h => lc.WithSessionID s h
  | .withTags ts, lc, h => lc.WithTags ts h
  | .withoutTags ts, lc, h => lc.WithoutTags ts h
  | .withMetadata m, lc, h => lc.WithMetadata m h
  | .withoutMetadata ks, lc, h => lc.WithoutMetadata ks h

/-- Go's defaulted read of a `map[string]bool`: `m[x]` is `false` when
the key is absent.  A tag belongs to the tag set exactly when this is
`true`. -/
def tagMember (m : TagMap) (x : String) : Bool := (mapLookup m x).getD false

/-- Top-level field of the marshaled record; `none` when the field is
absent from the JSON line (or marshaling failed). -/
def marshalField (o : LogOutput) (k : String) : Option Json :=
  match marshalLogOutput o with
  | .ok j => j.objLookup k
  | .error _ => none

/-- Field of the `details` object of the marshaled record. -/
def marshalDetailField (o : LogOutput) (k : String) : Option Json :=
  match marshalField o "details" with
  | some j => j.objLookup k
  | none => none

/-- Heap evolution that leaves every cell allocated in `h` untouched:
what a builder call must guarantee about the cells its receiver (and any
other live context) can reach. -/
structure HeapExtends (h h2 : Heap) : Prop where
  tagLen : h.tagCells.length ≤ h2.tagCells.length
  metaLen : h.metaCells.length ≤ h2.metaCells.length
  tagGet : ∀ r, r < h.tagCells.length → h2.getTag r = h.getTag r
  metaGet : ∀ r, r < h.metaCells.length → h2.getMeta r = h.getMeta r

theorem charListLe_total : ∀ as bs : List Char, charListLe as bs = true ∨ charListLe bs as = true
  | [], _ => Or.inl rfl
  | _ :: _, [] => Or.inr rfl
  | a :: as, b :: bs => by
    by_cases hab : a < b
    · left
      simp [charListLe, hab]
    · by_cases hba : b < a
      · right
        simp [charListLe, hba]
      · have ih := charListLe_total as bs
        simpa [charListLe, hab, hba] using ih

theorem charListLe_trans : ∀ as bs cs : List Char,
    charListLe as bs = true → charListLe bs cs = true → charListLe as cs = true
  | [], _, _ => fun _ _ => rfl
  | _ :: _, [], _ => fun h1 _ => by simp [charListLe] at h1
  | _ :: _, _ :: _, [] => fun _ h2 => by simp [charListLe] at h2
  | a :: as, b :: bs, c :: cs => fun h1 h2 => by
    simp only [charListLe] at h1 h2 ⊢
    rcases lt_trichotomy a b with hab | hab | hab
    · rcases lt_trichotomy b c with hbc | hbc | hbc
      · simp [lt_trans hab hbc]
      · subst hbc
        simp [hab]
      · simp [not_lt_of_gt hbc, hbc] at h2
    · subst hab
      simp only [lt_irrefl, if_false, ite_false] at h1
      rcases lt_trichotomy a c with hac | hac | hac
      · simp [hac]
      · subst hac
        simp only [lt_irrefl, if_false, ite_false] at h2 ⊢
        exact charListLe_trans as bs cs h1 h2
      · simp [not_lt_of_gt hac, hac] at h2
    · simp [not_lt_of_gt hab, hab] at h1

instance : IsTotal String strLe := ⟨fun s t => charListLe_total s.data t.data⟩

instance : IsTrans String strLe := ⟨fun s t u => charListLe_trans s.data t.data u.data⟩

theorem sortStrings_sorted (l : List String) : List.Sorted strLe (sortStrings l) :=
  List.sorted_insertionSort strLe l

theorem mem_sortStrings {k : String} {l : List String} : k ∈ sortStrings l ↔ k ∈ l :=
  (List.perm_insertionSort strLe l).mem_iff

theorem mapLookup_mapInsert {α : Type} (m : List (String × α)) (k : String) (v : α)
    (k2 : String) :
    mapLookup (mapInsert m k v) k2 = if k = k2 then some v else mapLookup m k2 := by
  induction m with
  | nil => simp [mapInsert, mapLookup]
  | cons p rest ih =>
    obtain ⟨pk, pv⟩ := p
    by_cases hpk : pk = k
    · subst hpk
      by_cases hk2 : pk = k2 <;> simp [mapInsert, mapLookup, hk2]
    · by_cases hk2 : pk = k2
      · subst hk2
        have : ¬ k = pk := fun hh => hpk hh.symm
        simp [mapInsert, mapLookup, hpk, this]
      · simp [mapInsert, mapLookup, hpk, hk2, ih]

theorem mapLookup_mapDelete {α : Type} (m : List (String × α)) (k : String) (k2 : String) :
    mapLookup (mapDelete m k) k2 = if k = k2 then none else mapLookup m k2 := by
  induction m with
  | nil => simp [mapDelete, mapLookup]
  | cons p rest ih =>
    obtain ⟨pk, pv⟩ := p
    by_cases hpk : pk = k
    · subst hpk
      by_cases hk2 : pk = k2
      · subst hk2
        simp [mapDelete, mapLookup, ih]
      · simp [mapDelete, mapLookup, hk2, ih]
    · by_cases hk2 : pk = k2
      · subst hk2
        have : ¬ k = pk := fun hh => hpk hh.symm
        simp [mapDelete, mapLookup, hpk, this]
      · simp [mapDelete, mapLookup, hpk, hk2, ih]

theorem mapDelete_absent {α : Type} (m : List (String × α)) (k : String)
    (hk : mapLookup m k = none) : mapDelete m k = m := by
  induction m with
  | nil => rfl
  | cons p rest ih =>
    obtain ⟨pk, pv⟩ := p
    by_cases hpk : pk = k
    · simp [mapLookup, hpk] at hk
    · simp [mapLookup, hpk] at hk
      simp [mapDelete, hpk, ih hk]

theorem mapLookup_foldl_insert_true (xs : List String) :
    ∀ (c : TagMap) (k : String),
      mapLookup (xs.foldl (fun c2 x => mapInsert c2 x true) c) k =
        if k ∈ xs then some true else mapLookup c k := by
  induction xs with
  | nil => intro c k; simp
  | cons x xs ih =>
    intro c k
    simp only [List.foldl_cons]
    rw [ih]
    by_cases hk : k ∈ xs
    · simp [hk]
    · by_cases hkx : x = k
      · subst hkx
        simp [hk, mapLookup_mapInsert]
      · simp [hk, hkx, mapLookup_mapInsert, Ne.symm hkx]

theorem mapLookup_foldl_delete {α : Type} (xs : List String) :
    ∀ (c : List (String × α)) (k : String),
      mapLookup (xs.foldl (fun c2 x => mapDelete c2 x) c) k =
        if k ∈ xs then none else mapLookup c k := by
  induction xs with
  | nil => intro c k; simp
  | cons x xs ih =>
    intro c k
    simp only [List.foldl_cons]
    rw [ih]
    by_cases hk : k ∈ xs
    · simp [hk]
    · by_cases hkx : x = k
      · subst hkx
        simp [hk, mapLookup_mapDelete]
      · simp [hk, hkx, mapLookup_mapDelete, Ne.symm hkx]

theorem foldl_delete_absent {α : Type} (xs : List String) :
    ∀ (c : List (String × α)), (∀ t ∈ xs, mapLookup c t = none) →
      xs.foldl (fun c2 x => mapDelete c2 x) c = c := by
  induction xs with
  | nil => intro c _; rfl
  | cons x xs ih =>
    intro c habs
    have hx : mapLookup c x = none := habs x (List.mem_cons_self x xs)
    simp only [List.foldl_cons, mapDelete_absent c x hx]
    exact ih c (fun t ht => habs t (List.mem_cons_of_mem x ht))

theorem getTag_allocTag_lt (h : Heap) (c : TagMap) (r : Nat)
    (hr : r < h.tagCells.length) : ((h.allocTag c).2).getTag r = h.getTag r := by
  simp [Heap.allocTag, Heap.getTag, List.getElem?_append_left hr]

theorem getMeta_allocMeta_lt (h : Heap) (c : MetaMap) (r : Nat)
    (hr : r < h.metaCells.length) : ((h.allocMeta c).2).getMeta r = h.getMeta r := by
  simp [Heap.allocMeta, Heap.getMeta, List.getElem?_append_left hr]

theorem heapExtends_refl (h : Heap) : HeapExtends h h :=
  ⟨le_refl _, le_refl _, fun _ _ => rfl, fun _ _ => rfl⟩

theorem HeapExtends.exTrans {h1 h2 h3 : Heap} (a : HeapExtends h1 h2)
    (b : HeapExtends h2 h3) : HeapExtends h1 h3 :=
  ⟨le_trans a.tagLen b.tagLen, le_trans a.metaLen b.metaLen,
   fun r hr => (b.tagGet r (lt_of_lt_of_le hr a.tagLen)).trans (a.tagGet r hr),
   fun r hr => (b.metaGet r (lt_of_lt_of_le hr a.metaLen)).trans (a.metaGet r hr)⟩

theorem heapExtends_allocTag (h : Heap) (c : TagMap) : HeapExtends h (h.allocTag c).2 := by
  refine ⟨?_, le_refl _, ?_, fun r hr => rfl⟩
  · simp [Heap.allocTag]
  · intro r hr
    exact getTag_allocTag_lt h c r hr

theorem heapExtends_allocMeta (h : Heap) (c : MetaMap) : HeapExtends h (h.allocMeta c).2 := by
  refine ⟨le_refl _, ?_, fun r hr => rfl, ?_⟩
  · simp [Heap.allocMeta]
  · intro r hr
    exact getMeta_allocMeta_lt h c r hr

theorem heapExtends_updateTag_ge {h h2 : Heap} (e : HeapExtends h h2) (i : Nat)
    (hi : h.tagCells.length ≤ i) (f : TagMap → TagMap) :
    HeapExtends h (h2.updateTag (some i) f) := by
  refine ⟨?_, e.metaLen, ?_, fun r hr => e.metaGet r hr⟩
  · simpa [Heap.updateTag, Heap.setTag] using e.tagLen
  · intro r hr
    have hne : i ≠ r := by omega
    simp [Heap.updateTag, Heap.setTag, Heap.getTag, List.getElem?_set_ne hne]
    have := e.tagGet r hr
    simp [Heap.getTag] at this
    exact this

theorem heapExtends_updateMeta_ge {h h2 : Heap} (e : HeapExtends h h2) (i : Nat)
    (hi : h.metaCells.length ≤ i) (f : MetaMap → MetaMap) :
    HeapExtends h (h2.updateMeta (some i) f) := by
  refine ⟨e.tagLen, ?_, fun r hr => e.tagGet r hr, ?_⟩
  · simpa [Heap.updateMeta, Heap.setMeta] using e.metaLen
  · intro r hr
    have hne : i ≠ r := by omega
    simp [Heap.updateMeta, Heap.setMeta, Heap.getMeta, List.getElem?_set_ne hne]
    have := e.metaGet r hr
    simp [Heap.getMeta] at this
    exact this

theorem heapExtends_foldl {α : Type} {h : Heap} (g : Heap → α → Heap)
    (hg : ∀ hh x, HeapExtends h hh → HeapExtends h (g hh x)) :
    ∀ (xs : List α) (h2 : Heap), HeapExtends h h2 → HeapExtends h (xs.foldl g h2)
  | [], _, e => e
  | x :: xs, h2, e => heapExtends_foldl g hg xs (g h2 x) (hg h2 x e)

theorem copyData_fst (lc : LogContext) (h : Heap) :
    (lc.copyData h).1 =
      { Tags := some h.tagCells.length, Category := lc.data.Category,
        Metadata := some h.metaCells.length, SessionID := lc.data.SessionID } := rfl

theorem copyData_snd_tagCells (lc : LogContext) (h : Heap) :
    (lc.copyData h).2.tagCells = h.tagCells ++ [h.readTag lc.data.Tags] := rfl

theorem copyData_snd_metaCells (lc : LogContext) (h : Heap) :
    (lc.copyData h).2.metaCells = h.metaCells ++ [h.readMeta lc.data.Metadata] := rfl

theorem heapExtends_copyData (lc : LogContext) (h : Heap) :
    HeapExtends h (lc.copyData h).2 :=
  (heapExtends_allocTag h (h.readTag lc.data.Tags)).exTrans
    (heapExtends_allocMeta _ _)

theorem WithCategory_def (lc : LogContext) (c : String) (h : Heap) :
    lc.WithCategory c h =
      ({ data := { (lc.copyData h).1 with Category := c } }, (lc.copyData h).2) := rfl

theorem WithSessionID_def (lc : LogContext) (s : String) (h : Heap) :
    lc.WithSessionID s h =
      ({ data := { (lc.copyData h).1 with SessionID := s } }, (lc.copyData h).2) := rfl

theorem WithTags_def (lc : LogContext) (ts : List String) (h : Heap) :
    lc.WithTags ts h =
      ({ data := (lc.copyData h).1 },
       ts.foldl (fun hh tag =>
         hh.updateTag (lc.copyData h).1.Tags (fun c => mapInsert c tag true)) (lc.copyData h).2) := rfl

theorem WithoutTags_def (lc : LogContext) (ts : List String) (h : Heap) :
    lc.WithoutTags ts h =
      ({ data := (lc.copyData h).1 },
       ts.foldl (fun hh tag =>
         hh.updateTag (lc.copyData h).1.Tags (fun c => mapDelete c tag)) (lc.copyData h).2) := rfl

theorem WithMetadata_def (lc : LogContext) (m : MetaMap) (h : Heap) :
    lc.WithMetadata m h =
      ({ data := (lc.copyData h).1 },
       m.foldl (fun hh kv =>
         hh.updateMeta (lc.copyData h).1.Metadata (fun c => mapInsert c kv.1 kv.2)) (lc.copyData h).2) := rfl

theorem WithoutMetadata_def (lc : LogContext) (ks : List String) (h : Heap) :
    lc.WithoutMetadata ks h =
      ({ data := (lc.copyData h).1 },
       ks.foldl (fun hh key =>
         hh.updateMeta (lc.copyData h).1.Metadata (fun c => mapDelete c key)) (lc.copyData h).2) := rfl

theorem heapExtends_applyMutator (m : Mutator) (lc : LogContext) (h : Heap) :
    HeapExtends h (applyMutator m lc h).2 := by
  have hbase := heapExtends_copyData lc h
  cases m with
  | withCategory c => exact hbase
  | withSessionID s => exact hbase
  | withTags ts =>
    show HeapExtends h (lc.WithTags ts h).2
    rw [WithTags_def, copyData_fst]
    exact heapExtends_foldl _
      (fun hh x e => heapExtends_updateTag_ge e _ (le_refl _) _) ts _ hbase
  | withoutTags ts =>
    show HeapExtends h (lc.WithoutTags ts h).2
    rw [WithoutTags_def, copyData_fst]
    exact heapExtends_foldl _
      (fun hh x e => heapExtends_updateTag_ge e _ (le_refl _) _) ts _ hbase
  | withMetadata md =>
    show HeapExtends h (lc.WithMetadata md h).2
    rw [WithMetadata_def, copyData_fst]
    exact heapExtends_foldl _
      (fun hh x e => heapExtends_updateMeta_ge e _ (le_refl _) _) md _ hbase
  | withoutMetadata ks =>
    show HeapExtends h (lc.WithoutMetadata ks h).2
    rw [WithoutMetadata_def, copyData_fst]
    exact heapExtends_foldl _
      (fun hh x e => heapExtends_updateMeta_ge e _ (le_refl _) _) ks _ hbase

theorem resolveData_of_heapExtends {h h2 : Heap} {lc : LogContext}
    (e : HeapExtends h h2) (hv : lc.ValidIn h) : resolveData h2 lc = resolveData h lc := by
  obtain ⟨hvt, hvm⟩ := hv
  simp only [resolveData, DataView.mk.injEq]
  refine ⟨?_, trivial, ?_, trivial⟩
  · cases hl : lc.data.Tags with
    | none => rfl
    | some r =>
      rw [hl] at hvt
      simp only [refValid, decide_eq_true_eq] at hvt
      exact e.tagGet r hvt
  · cases hl : lc.data.Metadata with
    | none => rfl
    | some r =>
      rw [hl] at hvm
      simp only [refValid, decide_eq_true_eq] at hvm
      exact e.metaGet r hvm

theorem getTag_updateTag_self (hh : Heap) (i : Nat) (f : TagMap → TagMap)
    (hi : i < hh.tagCells.length) :
    (hh.updateTag (some i) f).getTag i = f (hh.getTag i) := by
  simp [Heap.updateTag, Heap.setTag, Heap.getTag, List.getElem?_set, hi]

theorem getMeta_updateMeta_self (hh : Heap) (i : Nat) (f : MetaMap → MetaMap)
    (hi : i < hh.metaCells.length) :
    (hh.updateMeta (some i) f).getMeta i = f (hh.getMeta i) := by
  simp [Heap.updateMeta, Heap.setMeta, Heap.getMeta, List.getElem?_set, hi]

theorem tagCells_length_updateTag (hh : Heap) (r : Option Nat) (f : TagMap → TagMap) :
    (hh.updateTag r f).tagCells.length = hh.tagCells.length := by
  cases r <;> simp [Heap.updateTag, Heap.setTag]

theorem metaCells_length_updateMeta (hh : Heap) (r : Option Nat) (f : MetaMap → MetaMap) :
    (hh.updateMeta r f).metaCells.length = hh.metaCells.length := by
  cases r <;> simp [Heap.updateMeta, Heap.setMeta]

theorem foldl_updateTag_getTag {α : Type} (i : Nat) (u : α → TagMap → TagMap) :
    ∀ (xs : List α) (hh : Heap), i < hh.tagCells.length →
      (xs.foldl (fun h2 x => h2.updateTag (some i) (u x)) hh).getTag i =
        xs.foldl (fun c x => u x c) (hh.getTag i)
  | [], _, _ => rfl
  | x :: xs, hh, hi => by
    simp only [List.foldl_cons]
    rw [foldl_updateTag_getTag i u xs _ (by simpa [tagCells_length_updateTag] using hi),
        getTag_updateTag_self hh i (u x) hi]

theorem foldl_updateMeta_getMeta {α : Type} (i : Nat) (u : α → MetaMap → MetaMap) :
    ∀ (xs : List α) (hh : Heap), i < hh.metaCells.length →
      (xs.foldl (fun h2 x => h2.updateMeta (some i) (u x)) hh).getMeta i =
        xs.foldl (fun c x => u x c) (hh.getMeta i)
  | [], _, _ => rfl
  | x :: xs, hh, hi => by
    simp only [List.foldl_cons]
    rw [foldl_updateMeta_getMeta i u xs _ (by simpa [metaCells_length_updateMeta] using hi),
        getMeta_updateMeta_self hh i (u x) hi]

theorem copyData_getTag_fresh (lc : LogContext) (h : Heap) :
    (lc.copyData h).2.getTag h.tagCells.length = h.readTag lc.data.Tags := by
  simp [Heap.getTag, copyData_snd_tagCells]

theorem copyData_getMeta_fresh (lc : LogContext) (h : Heap) :
    (lc.copyData h).2.getMeta h.metaCells.length = h.readMeta lc.data.Metadata := by
  simp [Heap.getMeta, copyData_snd_metaCells]

theorem copyData_tagCells_length (lc : LogContext) (h : Heap) :
    h.tagCells.length < (lc.copyData h).2.tagCells.length := by
  simp [copyData_snd_tagCells]

theorem copyData_metaCells_length (lc : LogContext) (h : Heap) :
    h.metaCells.length < (lc.copyData h).2.metaCells.length := by
  simp [copyData_snd_metaCells]

theorem WithTags_resolved_tags (lc : LogContext) (ts : List String) (h : Heap) :
    (resolveData (lc.WithTags ts h).2 (lc.WithTags ts h).1).tags =
      ts.foldl (fun c t => mapInsert c t true) (h.readTag lc.data.Tags) := by
  rw [WithTags_def]
  simp only [resolveData, copyData_fst, Heap.readTag]
  rw [foldl_updateTag_getTag _ _ ts _ (copyData_tagCells_length lc h),
      copyData_getTag_fresh]
  cases lc.data.Tags <;> rfl

theorem WithoutTags_resolved_tags (lc : LogContext) (ts : List String) (h : Heap) :
    (resolveData (lc.WithoutTags ts h).2 (lc.WithoutTags ts h).1).tags =
      ts.foldl (fun c t => mapDelete c t) (h.readTag lc.data.Tags) := by
  rw [WithoutTags_def]
  simp only [resolveData, copyData_fst, Heap.readTag]
  rw [foldl_updateTag_getTag _ _ ts _ (copyData_tagCells_length lc h),
      copyData_getTag_fresh]
  cases lc.data.Tags <;> rfl

theorem buildLogOutput_Level (level : LogLevel) (d : DataView) (args : List GoValue)
    (now : String) : (buildLogOutput level d args now).Level = level := rfl

theorem buildLogOutput_Message (level : LogLevel) (d : DataView) (args : List GoValue)
    (now : String) :
    (buildLogOutput level d args now).Message =
      if args = [] then none else some (GoValue.str (goSprint args)) := by
  simp only [buildLogOutput]
  cases args <;> simp

theorem buildLogOutput_SessionID (level : LogLevel) (d : DataView) (args : List GoValue)
    (now : String) : (buildLogOutput level d args now).SessionID = d.sessionID := by
  simp only [buildLogOutput]
  by_cases hs : d.sessionID = "" <;> simp [hs]

theorem mapLookup_append {α : Type} (m1 m2 : List (String × α)) (k : String) :
    mapLookup (m1 ++ m2) k =
      match mapLookup m1 k with
      | some v => some v
      | none => mapLookup m2 k := by
  induction m1 with
  | nil => rfl
  | cons p rest ih =>
    obtain ⟨pk, pv⟩ := p
    by_cases hp : pk = k <;> simp [mapLookup, hp, ih]

theorem length_pos_iff_ne_nil {α : Type} (l : List α) : l.length > 0 ↔ ¬ l = [] := by
  cases l <;> simp

theorem details_lookup_tags (level : LogLevel) (d : DataView) (args : List GoValue)
    (now : String) :
    mapLookup (buildLogOutput level d args now).Details "tags" =
      if d.tags = [] then none
      else some (DetailValue.strlist (sortStrings (mapKeys d.tags))) := by
  by_cases ht : d.tags = []
  · have ht' : ¬ d.tags.length > 0 := by simp [ht]
    by_cases hc : d.category = "" <;> by_cases hm : d.metadata.length > 0 <;>
      simp [buildLogOutput, ht, ht', hc, hm, mapLookup_append, mapLookup]
  · have ht' : d.tags.length > 0 := (length_pos_iff_ne_nil d.tags).mpr ht
    by_cases hc : d.category = "" <;> by_cases hm : d.metadata.length > 0 <;>
      simp [buildLogOutput, ht, ht', hc, hm, mapLookup_append, mapLookup]

theorem details_lookup_category (level : LogLevel) (d : DataView) (args : List GoValue)
    (now : String) :
    mapLookup (buildLogOutput level d args now).Details "category" =
      if d.category = "" then none else some (DetailValue.strv d.category) := by
  by_cases ht : d.tags.length > 0 <;> by_cases hc : d.category = "" <;>
    by_cases hm : d.metadata.length > 0 <;>
      simp [buildLogOutput, ht, hc, hm, mapLookup_append, mapLookup]

theorem details_lookup_metadata (level : LogLevel) (d : DataView) (args : List GoValue)
    (now : String) :
    mapLookup (buildLogOutput level d args now).Details "metadata" =
      if d.metadata = [] then none else some (DetailValue.strmap d.metadata) := by
  by_cases hm : d.metadata = []
  · have hm' : ¬ d.metadata.length > 0 := by simp [hm]
    by_cases ht : d.tags.length > 0 <;> by_cases hc : d.category = "" <;>
      simp [buildLogOutput, ht, hc, hm, hm', mapLookup_append, mapLookup]
  · have hm' : d.metadata.length > 0 := (length_pos_iff_ne_nil d.metadata).mpr hm
    by_cases ht : d.tags.length > 0 <;> by_cases hc : d.category = "" <;>
      simp [buildLogOutput, ht, hc, hm, hm', mapLookup_append, mapLookup]

theorem details_lookup_timestamp (level : LogLevel) (d : DataView) (args : List GoValue)
    (now : String) :
    mapLookup (buildLogOutput level d args now).Details "timestamp" =
      some (DetailValue.strv now) := by
  by_cases ht : d.tags.length > 0 <;> by_cases hc : d.category = "" <;>
    by_cases hm : d.metadata.length > 0 <;>
      simp [buildLogOutput, ht, hc, hm, mapLookup_append, mapLookup]

theorem details_lookup_other (level : LogLevel) (d : DataView) (args : List GoValue)
    (now : String) (k : String) (h1 : ¬ "tags" = k) (h2 : ¬ "category" = k)
    (h3 : ¬ "metadata" = k) (h4 : ¬ "timestamp" = k) :
    mapLookup (buildLogOutput level d args now).Details k = none := by
  by_cases ht : d.tags.length > 0 <;> by_cases hc : d.category = "" <;>
    by_cases hm : d.metadata.length > 0 <;>
      simp [buildLogOutput, ht, hc, hm, mapLookup_append, mapLookup, h1, h2, h3, h4]

theorem mapLookup_keyFnMap (ks : List String) (f : String → Json) (k : String) :
    mapLookup (ks.map (fun x => (x, f x))) k = if k ∈ ks then some (f k) else none := by
  induction ks with
  | nil => simp [mapLookup]
  | cons x xs ih =>
    by_cases hx : x = k
    · subst hx
      simp [mapLookup]
    · simp [mapLookup, hx, ih, Ne.symm hx]

theorem lookup_isSome_iff_mem_keys {α : Type} (m : List (String × α)) (k : String) :
    (mapLookup m k).isSome = true ↔ k ∈ mapKeys m := by
  induction m with
  | nil => simp [mapLookup, mapKeys]
  | cons p rest ih =>
    obtain ⟨pk, pv⟩ := p
    by_cases hp : pk = k
    · subst hp
      simp [mapLookup, mapKeys]
    · simp [mapLookup, mapKeys, hp, ih]
      exact fun he => absurd he.symm hp

theorem mapLookup_detailsObjFields (m : List (String × DetailValue)) (k : String) :
    mapLookup (detailsObjFields m) k = (mapLookup m k).map detailValueToJson := by
  unfold detailsObjFields
  rw [mapLookup_keyFnMap (sortStrings (mapKeys m))
    (fun k2 => detailValueToJson ((mapLookup m k2).getD (DetailValue.strv ""))) k]
  by_cases hm : k ∈ mapKeys m
  · have hs : (mapLookup m k).isSome = true := (lookup_isSome_iff_mem_keys m k).mpr hm
    cases hv : mapLookup m k with
    | none => rw [hv] at hs; simp at hs
    | some dv => simp [mem_sortStrings, hm, hv]
  · have hs : ¬ (mapLookup m k).isSome = true := fun hh =>
      hm ((lookup_isSome_iff_mem_keys m k).mp hh)
    cases hv : mapLookup m k with
    | none => simp [mem_sortStrings, hm, hv]
    | some dv => rw [hv] at hs; simp at hs

theorem marshalField_details (level : LogLevel) (d : DataView) (args : List GoValue)
    (now : String) :
    marshalField (buildLogOutput level d args now) "details" =
      some (Json.obj (detailsObjFields (buildLogOutput level d args now).Details)) := by
  by_cases ha : args = [] <;> by_cases hs : d.sessionID = "" <;>
    simp [marshalField, marshalLogOutput, buildLogOutput_Message, buildLogOutput_SessionID,
          ha, hs, goValueToJson, Json.objLookup, mapLookup]

theorem marshalDetailField_build (level : LogLevel) (d : DataView) (args : List GoValue)
    (now : String) (k : String) :
    marshalDetailField (buildLogOutput level d args now) k =
      (mapLookup (buildLogOutput level d args now).Details k).map detailValueToJson := by
  simp [marshalDetailField, marshalField_details, Json.objLookup, mapLookup_detailsObjFields]

theorem marshalField_level (level : LogLevel) (d : DataView) (args : List GoValue)
    (now : String) :
    marshalField (buildLogOutput level d args now) "level" =
      some (Json.str level.levelString) := by
  by_cases ha : args = [] <;> by_cases hs : d.sessionID = "" <;>
    simp [marshalField, marshalLogOutput, buildLogOutput_Message, buildLogOutput_SessionID,
          ha, hs, goValueToJson, Json.objLookup, mapLookup, buildLogOutput_Level]

theorem marshalField_message (level : LogLevel) (d : DataView) (args : List GoValue)
    (now : String) :
    marshalField (buildLogOutput level d args now) "message" =
      if args = [] then none else some (Json.str (goSprint args)) := by
  by_cases ha : args = [] <;> by_cases hs : d.sessionID = "" <;>
    simp [marshalField, marshalLogOutput, buildLogOutput_Message, buildLogOutput_SessionID,
          ha, hs, goValueToJson, Json.objLookup, mapLookup]

theorem marshalField_sessionId (level : LogLevel) (d : DataView) (args : List GoValue)
    (now : String) :
    marshalField (buildLogOutput level d args now) "sessionId" =
      if d.sessionID = "" then none else some (Json.str d.sessionID) := by
  by_cases ha : args = [] <;> by_cases hs : d.sessionID = "" <;>
    simp [marshalField, marshalLogOutput, buildLogOutput_Message, buildLogOutput_SessionID,
          ha, hs, goValueToJson, Json.objLookup, mapLookup]

theorem logRecord_def (ctx : GoContext) (level : LogLevel) (args : List GoValue) (h : Heap)
    (now : String) :
    logRecord ctx level args h now =
      buildLogOutput level
        (resolveData (GetLogContext ctx h).2 (GetLogContext ctx h).1) args now := rfl

/-- C1: the claim says a call with two or more arguments and a
non-error-like last argument joins all arguments' string forms with
single spaces; on the code, `fmt.Sprint` inserts no space between
adjacent string operands, so logging the strings "a", "b", "c" yields
message "abc", not "a b c". -/
theorem c1_counterexample :
    (logRecord GoContext.background LogLevel.info
      [GoValue.str "a", GoValue.str "b", GoValue.str "c"]
      { tagCells := [], metaCells := [] } "ts").Message = some (GoValue.str "abc") ∧
    "abc" ≠ "a b c" := by
  constructor
  · decide
  · decide

/-- C1 (amended): for every debug/info/warn/error call with two or more
arguments whose last argument is not error-like, the emitted record's
message is `fmt.Sprint` of the arguments — their string forms
concatenated, with a single space inserted between two adjacent
arguments only when neither of them is a string. -/
theorem c1_message_is_sprint (ctx : GoContext) (level : LogLevel) (args : List GoValue)
    (h : Heap) (now : String) (hlen : 2 ≤ args.length)
    (hlast : args.getLast?.all (fun a => !a.isErrorValue) = true) :
    (logRecord ctx level args h now).Message = some (GoValue.str (goSprint args)) := by
  have hne : ¬ args = [] := by
    cases args with
    | nil => simp at hlen
    | cons a l => simp
  rw [logRecord_def, buildLogOutput_Message]
  simp [hne]

/-- C1 witness: the amended theorem applied to the concrete call
`Info("a", "b", "c")` on an empty context. -/
theorem c1_witness :
    2 ≤ ([GoValue.str "a", GoValue.str "b", GoValue.str "c"] : List GoValue).length ∧
    ([GoValue.str "a", GoValue.str "b", GoValue.str "c"] : List GoValue).getLast?.all
      (fun a => !a.isErrorValue) = true ∧
    (logRecord GoContext.background LogLevel.info
      [GoValue.str "a", GoValue.str "b", GoValue.str "c"]
      { tagCells := [], metaCells := [] } "ts").Message =
        some (GoValue.str (goSprint [GoValue.str "a", GoValue.str "b", GoValue.str "c"])) :=
  ⟨by decide, by decide,
   c1_message_is_sprint GoContext.background LogLevel.info
     [GoValue.str "a", GoValue.str "b", GoValue.str "c"]
     { tagCells := [], metaCells := [] } "ts" (by decide) (by decide)⟩

/-- C2: the claim says a single error-like argument produces a stack
field holding the error's verbose representation; on the code, logging
the error displaying "boom" yields message "boom" but the details carry
no stack field at all. -/
theorem c2_counterexample :
    (logRecord GoContext.background LogLevel.error [GoValue.errv "boom"]
      { tagCells := [], metaCells := [] } "ts").Message = some (GoValue.str "boom") ∧
    mapLookup (logRecord GoContext.background LogLevel.error [GoValue.errv "boom"]
      { tagCells := [], metaCells := [] } "ts").Details "stack" = none := by
  constructor
  · decide
  · decide

/-- C2 (amended): for every debug/info/warn/error call with exactly one
argument, the emitted record's message is that argument's default string
form (for an error-like value, its display string), and the record's
details never contain a stack field — for any argument list. -/
theorem c2_single_argument_message_no_stack :
    (∀ (ctx : GoContext) (level : LogLevel) (a : GoValue) (h : Heap) (now : String),
      (logRecord ctx level [a] h now).Message = some (GoValue.str a.form)) ∧
    (∀ (ctx : GoContext) (level : LogLevel) (args : List GoValue) (h : Heap) (now : String),
      mapLookup (logRecord ctx level args h now).Details "stack" = none) := by
  constructor
  · intro ctx level a h now
    rw [logRecord_def, buildLogOutput_Message]
    simp [goSprint]
  · intro ctx level args h now
    rw [logRecord_def]
    exact details_lookup_other _ _ _ _ _ (by decide) (by decide) (by decide) (by decide)

/-- C3: applying any of the six builder mutators to a context returns a
new context and leaves the receiver's observable data — tags, category,
metadata, session id — exactly as before the call. -/
theorem c3_mutators_preserve_receiver (m : Mutator) (lc : LogContext) (h : Heap)
    (hv : lc.ValidIn h) :
    resolveData (applyMutator m lc h).2 lc = resolveData h lc :=
  resolveData_of_heapExtends (heapExtends_applyMutator m lc h) hv

/-- C3 witness: `WithTags("b")` applied to a context holding tag set
containing "a" and metadata containing one pair leaves the receiver's
resolved data unchanged. -/
theorem c3_witness :
    (LogContext.mk ⟨some 0, "cat", some 0, "sess"⟩).ValidIn
      { tagCells := [[("a", true)]], metaCells := [[("k", "v")]] } ∧
    resolveData (applyMutator (Mutator.withTags ["b"])
        (LogContext.mk ⟨some 0, "cat", some 0, "sess"⟩)
        { tagCells := [[("a", true)]], metaCells := [[("k", "v")]] }).2
      (LogContext.mk ⟨some 0, "cat", some 0, "sess"⟩) =
    resolveData { tagCells := [[("a", true)]], metaCells := [[("k", "v")]] }
      (LogContext.mk ⟨some 0, "cat", some 0, "sess"⟩) :=
  ⟨by decide,
   c3_mutators_preserve_receiver (Mutator.withTags ["b"])
     (LogContext.mk ⟨some 0, "cat", some 0, "sess"⟩)
     { tagCells := [[("a", true)]], metaCells := [[("k", "v")]] } (by decide)⟩

/-- C4: the claim says `NewLogContext` defensively copies any
caller-supplied collection; on the code, the returned context keeps the
caller's map header, so the caller's later write of tag "b" into their
own map becomes visible through the context ("b" was absent from the
context's data right after construction). -/
theorem c4_counterexample :
    tagMember (resolveData
      (((NewLogContext ⟨some 0, "", none, ""⟩
          { tagCells := [[("a", true)]], metaCells := [] }).2).updateTag
        (some 0) (fun c => mapInsert c "b" true))
      (NewLogContext ⟨some 0, "", none, ""⟩
        { tagCells := [[("a", true)]], metaCells := [] }).1).tags "b" = true ∧
    tagMember (resolveData
      (NewLogContext ⟨some 0, "", none, ""⟩
        { tagCells := [[("a", true)]], metaCells := [] }).2
      (NewLogContext ⟨some 0, "", none, ""⟩
        { tagCells := [[("a", true)]], metaCells := [] }).1).tags "b" = false := by
  constructor
  · decide
  · decide

/-- C4 (amended): `NewLogContext` normalizes nil tag and metadata
collections to fresh empty ones — the returned context's headers are
never nil — but it does not copy caller-supplied collections: a non-nil
header is kept as-is, so the context aliases the caller's map. -/
theorem c4_create_normalizes_but_aliases (d : LogContextData) (h : Heap) :
    ((NewLogContext d h).1.data.Tags.isSome = true ∧
      (NewLogContext d h).1.data.Metadata.isSome = true) ∧
    (d.Tags = none →
      (NewLogContext d h).1.data.Tags = some h.tagCells.length ∧
      (NewLogContext d h).2.getTag h.tagCells.length = []) ∧
    (d.Metadata = none →
      (NewLogContext d h).1.data.Metadata = some h.metaCells.length ∧
      (NewLogContext d h).2.getMeta h.metaCells.length = []) ∧
    (∀ r, d.Tags = some r → (NewLogContext d h).1.data.Tags = some r) ∧
    (∀ r, d.Metadata = some r → (NewLogContext d h).1.data.Metadata = some r) ∧
    (NewLogContext d h).1.data.Category = d.Category ∧
    (NewLogContext d h).1.data.SessionID = d.SessionID := by
  obtain ⟨dt, dc, dm, ds⟩ := d
  cases dt <;> cases dm <;>
    simp [NewLogContext, Heap.allocTag, Heap.allocMeta, Heap.getTag, Heap.getMeta]

/-- C4 witness: constructing from nil collections over the empty heap
yields fresh empty cells at index 0. -/
theorem c4_witness :
    (NewLogContext ⟨none, "c", none, "s"⟩ { tagCells := [], metaCells := [] }).1.data.Tags =
      some 0 ∧
    (NewLogContext ⟨none, "c", none, "s"⟩ { tagCells := [], metaCells := [] }).2.getTag 0 = [] :=
  (c4_create_normalizes_but_aliases ⟨none, "c", none, "s"⟩
    { tagCells := [], metaCells := [] }).2.1 rfl

/-- C5: `GetLogContext` is total — when the type assertion on the value
stored under `logContextKey` succeeds it returns that (nearest
enclosing) bound context unchanged; otherwise it returns a fresh empty
context (empty tags, empty metadata, empty category, empty session id);
a binding installed by `WithLogContext` is the one retrieved, and a
`WithValue` layer under a different key is transparent. -/
theorem c5_get_log_context_total (ctx : GoContext) (h : Heap) :
    (∀ lc, boundLogContext ctx = some lc → GetLogContext ctx h = (lc, h)) ∧
    (boundLogContext ctx = none →
      resolveData (GetLogContext ctx h).2 (GetLogContext ctx h).1 =
        { tags := [], category := "", metadata := [], sessionID := "" }) ∧
    (∀ lc, boundLogContext (WithLogContext ctx lc) = some lc) ∧
    (∀ key v, ¬ key = logContextKey →
      boundLogContext (GoContext.withValue ctx key v) = boundLogContext ctx) := by
  refine ⟨?_, ?_, ?_, ?_⟩
  · intro lc hb
    simp [GetLogContext, hb]
  · intro hb
    simp [GetLogContext, hb, NewLogContext, resolveData, Heap.readTag, Heap.readMeta,
          Heap.getTag, Heap.getMeta, Heap.allocTag, Heap.allocMeta]
  · intro lc
    simp [boundLogContext, WithLogContext, GoContext.valueOf, assertLogContext]
  · intro key v hk
    simp [boundLogContext, GoContext.valueOf, hk]

/-- C5 witness: retrieval inside a binding returns the bound context
with the heap untouched, and retrieval outside any binding resolves to
the empty view. -/
theorem c5_witness :
    GetLogContext
      (WithLogContext GoContext.background (LogContext.mk ⟨some 0, "c", some 0, "s"⟩))
      { tagCells := [[("a", true)]], metaCells := [[]] } =
      (LogContext.mk ⟨some 0, "c", some 0, "s"⟩,
       { tagCells := [[("a", true)]], metaCells := [[]] }) ∧
    resolveData (GetLogContext GoContext.background { tagCells := [], metaCells := [] }).2
      (GetLogContext GoContext.background { tagCells := [], metaCells := [] }).1 =
      { tags := [], category := "", metadata := [], sessionID := "" } :=
  ⟨(c5_get_log_context_total
      (WithLogContext GoContext.background (LogContext.mk ⟨some 0, "c", some 0, "s"⟩))
      { tagCells := [[("a", true)]], metaCells := [[]] }).1
        (LogContext.mk ⟨some 0, "c", some 0, "s"⟩) (by decide),
   (c5_get_log_context_total GoContext.background
      { tagCells := [], metaCells := [] }).2.1 (by decide)⟩

/-- C6: the callback form of `WithLogContext` runs the callback on the
context enriched with the given `LogContext` — under which
`GetLogContext` retrieves exactly that context — and returns the
callback's result/error pair as-is, with no wrapping or masking. -/
theorem c6_callback_binding_and_transparency (T : Type) (ctx : GoContext) (lc : LogContext)
    (callback : GoContext → T × Option String) :
    Copy2.WithLogContext ctx lc callback =
      callback (GoContext.withValue ctx logContextKey (CtxValue.logctx lc)) ∧
    (∀ h : Heap,
      Copy2.GetLogContext (GoContext.withValue ctx logContextKey (CtxValue.logctx lc)) h =
        (lc, h)) := by
  constructor
  · rfl
  · intro h
    simp [Copy2.GetLogContext, boundLogContext, GoContext.valueOf, assertLogContext]

/-- C7: the claim says every empty optional field, message included, is
absent from the output; on the code, calling `Info("")` yields a record
whose marshaled output contains a message field holding the empty
string (the `omitempty` tag does not look inside a non-nil interface
value). -/
theorem c7_counterexample :
    marshalField (logRecord GoContext.background LogLevel.info [GoValue.str ""]
      { tagCells := [], metaCells := [] } "ts") "message" = some (Json.str "") := rfl

/-- C7 (amended): in the marshaled record the tags, when present, are
the byte-wise ascending sort of the tag keys; empty sessionId, tags,
category and metadata are absent rather than null or empty; the
timestamp is always present; and the message field is absent exactly
when the call had no arguments (a nonempty argument list whose string
form is empty yields a present, empty message value). -/
theorem c7_output_shape (level : LogLevel) (d : DataView) (args : List GoValue) (now : String) :
    marshalField (buildLogOutput level d args now) "level" =
      some (Json.str level.levelString) ∧
    marshalField (buildLogOutput level d args now) "message" =
      (if args = [] then none else some (Json.str (goSprint args))) ∧
    marshalField (buildLogOutput level d args now) "sessionId" =
      (if d.sessionID = "" then none else some (Json.str d.sessionID)) ∧
    marshalDetailField (buildLogOutput level d args now) "tags" =
      (if d.tags = [] then none
       else some (Json.arr ((sortStrings (mapKeys d.tags)).map Json.str))) ∧
    List.Sorted strLe (sortStrings (mapKeys d.tags)) ∧
    marshalDetailField (buildLogOutput level d args now) "category" =
      (if d.category = "" then none else some (Json.str d.category)) ∧
    marshalDetailField (buildLogOutput level d args now) "metadata" =
      (if d.metadata = [] then none
       else some (detailValueToJson (DetailValue.strmap d.metadata))) ∧
    marshalDetailField (buildLogOutput level d args now) "timestamp" =
      some (Json.str now) := by
  refine ⟨marshalField_level level d args now, marshalField_message level d args now,
    marshalField_sessionId level d args now, ?_, sortStrings_sorted (mapKeys d.tags),
    ?_, ?_, ?_⟩
  · rw [marshalDetailField_build, details_lookup_tags]
    by_cases ht : d.tags = [] <;> simp [ht, detailValueToJson]
  · rw [marshalDetailField_build, details_lookup_category]
    by_cases hc : d.category = "" <;> simp [hc, detailValueToJson]
  · rw [marshalDetailField_build, details_lookup_metadata]
    by_cases hm : d.metadata = [] <;> simp [hm]
  · rw [marshalDetailField_build, details_lookup_timestamp]
    simp [detailValueToJson]

/-- C8: when marshaling a record fails, the logger writes the
diagnostic line naming the failure to the standard error stream and
drops the record — nothing reaches standard output and no failure is
surfaced (the call returns normally); when marshaling succeeds the
record goes to standard output and nothing to standard error. -/
theorem c8_marshal_failure_swallowed (o : LogOutput) :
    (∀ e, marshalLogOutput o = .error e →
      emitLogOutput o =
        { stdout := none, stderr := some ("Failed to marshal log: " ++ e ++ "\n") }) ∧
    (∀ j, marshalLogOutput o = .ok j →
      emitLogOutput o = { stdout := some j, stderr := none }) := by
  constructor
  · intro e he
    simp [emitLogOutput, he]
  · intro j hj
    simp [emitLogOutput, hj]

/-- C8 witness: a record whose message holds a function value fails to
marshal; the emitter writes only the diagnostic line. -/
theorem c8_witness :
    emitLogOutput
      { Level := LogLevel.info, Message := some GoValue.fn, SessionID := "",
        Details := [("timestamp", DetailValue.strv "ts")] } =
      { stdout := none,
        stderr := some ("Failed to marshal log: " ++ "json: unsupported type: func()" ++ "\n") } :=
  (c8_marshal_failure_swallowed
    { Level := LogLevel.info, Message := some GoValue.fn, SessionID := "",
      Details := [("timestamp", DetailValue.strv "ts")] }).1
    "json: unsupported type: func()" rfl

/-- C9: `WithTags` is set-union and `WithoutTags` is set-difference on
the tag set (membership = the map yields `true`), and removing tags
none of which are present leaves the tag map unchanged. -/
theorem c9_tags_union_difference :
    (∀ (lc : LogContext) (h : Heap) (ts : List String) (x : String),
      tagMember (resolveData (lc.WithTags ts h).2 (lc.WithTags ts h).1).tags x =
        (tagMember (resolveData h lc).tags x || decide (x ∈ ts))) ∧
    (∀ (lc : LogContext) (h : Heap) (ts : List String) (x : String),
      tagMember (resolveData (lc.WithoutTags ts h).2 (lc.WithoutTags ts h).1).tags x =
        (tagMember (resolveData h lc).tags x && !decide (x ∈ ts))) ∧
    (∀ (lc : LogContext) (h : Heap) (ts : List String),
      (∀ t ∈ ts, mapLookup (resolveData h lc).tags t = none) →
      (resolveData (lc.WithoutTags ts h).2 (lc.WithoutTags ts h).1).tags =
        (resolveData h lc).tags) := by
  refine ⟨?_, ?_, ?_⟩
  · intro lc h ts x
    simp only [tagMember]
    rw [WithTags_resolved_tags, mapLookup_foldl_insert_true]
    by_cases hx : x ∈ ts <;> simp [hx, resolveData]
  · intro lc h ts x
    simp only [tagMember]
    rw [WithoutTags_resolved_tags, mapLookup_foldl_delete]
    by_cases hx : x ∈ ts <;> simp [hx, resolveData]
  · intro lc h ts habs
    rw [WithoutTags_resolved_tags, foldl_delete_absent ts _ ?_]
    · simp [resolveData]
    · intro t ht
      simpa [resolveData] using habs t ht

/-- C9 witness: removing the absent tag "z" from the tag set containing
"a" leaves the resolved tag map unchanged. -/
theorem c9_witness :
    (resolveData ((LogContext.mk ⟨some 0, "", some 0, ""⟩).WithoutTags ["z"]
        { tagCells := [[("a", true)]], metaCells := [[]] }).2
      ((LogContext.mk ⟨some 0, "", some 0, ""⟩).WithoutTags ["z"]
        { tagCells := [[("a", true)]], metaCells := [[]] }).1).tags =
    (resolveData { tagCells := [[("a", true)]], metaCells := [[]] }
      (LogContext.mk ⟨some 0, "", some 0, ""⟩)).tags :=
  c9_tags_union_difference.2.2 (LogContext.mk ⟨some 0, "", some 0, ""⟩)
    { tagCells := [[("a", true)]], metaCells := [[]] } ["z"] (by decide)

/-- C10: the two duplicated copies of the context builder are
extensionally equal on all shared operations: `NewLogContext`,
`copyData`, the six mutators and `GetLogContext` of the second copy
return the same result as the first copy's function on every input. -/
theorem c10_duplicated_copies_agree :
    (∀ (d : LogContextData) (h : Heap), Copy2.NewLogContext d h = NewLogContext d h) ∧
    (∀ (lc : LogContext) (h : Heap), Copy2.copyData lc h = lc.copyData h) ∧
    (∀ (lc : LogContext) (c : String) (h : Heap),
      Copy2.WithCategory lc c h = lc.WithCategory c h) ∧
    (∀ (lc : LogContext) (s : String) (h : Heap),
      Copy2.WithSessionID lc s h = lc.WithSessionID s h) ∧
    (∀ (lc : LogContext) (ts : List String) (h : Heap),
      Copy2.WithTags lc ts h = lc.WithTags ts h) ∧
    (∀ (lc : LogContext) (ts : List String) (h : Heap),
      Copy2.WithoutTags lc ts h = lc.WithoutTags ts h) ∧
    (∀ (lc : LogContext) (m : MetaMap) (h : Heap),
      Copy2.WithMetadata lc m h = lc.WithMetadata m h) ∧
    (∀ (lc : LogContext) (ks : List String) (h : Heap),
      Copy2.WithoutMetadata lc ks h = lc.WithoutMetadata ks h) ∧
    (∀ (ctx : GoContext) (h : Heap), Copy2.GetLogContext ctx h = GetLogContext ctx h) := by
  refine ⟨?_, ?_, ?_, ?_, ?_, ?_, ?_, ?_, ?_⟩ <;> intros <;> rfl

end ContextLogger
